import Mathlib

/-!
Verification of the project-manager VS Code extension
(`src/chat-sample/src/projectManagementTreeView.ts`,
`src/chat-sample/src/projectManager.ts`, and the chat participant
registration module) against its natural-language specification.

The TypeScript is embedded shallowly:

* Filesystem paths are lists of components (`path.join dir item` is
  `dir ++ [item]`).  The Node.js filesystem is a finite table of existing
  paths together with oracles saying which `statSync` / `readdirSync` /
  `mkdirSync` calls throw; operations that can throw return `Except Unit`.
* UI side effects (stream writes, notifications, clipboard writes) are
  collected into explicit event lists.
* The host chat-completion service is an environment value: the list of
  text fragments it yields followed by an optional error.
-/

namespace ProjectManager

/-- A filesystem path, as the list of its components.
`path.join dir item` in the source becomes `dir ++ [item]`. -/
abbrev FsPath := List String

/-- What a path in the modelled filesystem is: a regular file with a size in
bytes, or a directory. -/
inductive FsKind where
  | file (size : Nat)
  | dir
deriving DecidableEq, Repr

/-- The Node.js filesystem as seen through `fs.existsSync`, `fs.readdirSync`,
`fs.statSync` and `fs.mkdirSync`: the table of existing paths with their
kinds (enumeration order is the table order), plus oracles for the I/O
errors those calls can throw. -/
structure FileSystem where
  nodes : List (FsPath × FsKind)
  /-- Paths on which `fs.statSync` throws (permission errors and the like). -/
  statFails : List FsPath
  /-- Paths on which `fs.readdirSync` throws. -/
  readdirFails : List FsPath
  /-- Whether `fs.mkdirSync` throws. -/
  mkdirFails : Bool
deriving Repr

/-- `fs.existsSync(p)`: never throws, reports whether the path is present. -/
def existsSync (fs : FileSystem) (p : FsPath) : Bool :=
  (fs.nodes.lookup p).isSome

/-- The result of `fs.statSync`: the source only reads `isDirectory()` and
`size`. -/
structure Stats where
  isDirectory : Bool
  size : Nat
deriving DecidableEq, Repr

/-- `fs.statSync(p)`: throws when the stat oracle says so or the path is
absent; otherwise classifies the node.  (A directory's own byte size is
never read by the source, so it is not modelled.) -/
def statSync (fs : FileSystem) (p : FsPath) : Except Unit Stats :=
  if p ∈ fs.statFails then .error () else
    match fs.nodes.lookup p with
    | some (.file n) => .ok { isDirectory := false, size := n }
    | some .dir => .ok { isDirectory := true, size := 0 }
    | none => .error ()

/-- The name under which `q` is an immediate child of `p`, if it is one. -/
def childName (p q : FsPath) : Option String :=
  if q ≠ [] ∧ q.dropLast = p then q.getLast? else none

/-- The immediate children of `p`, in table order. -/
def childNames (fs : FileSystem) (p : FsPath) : List String :=
  fs.nodes.filterMap (fun qk => childName p qk.1)

/-- `fs.readdirSync(p)`: throws when the readdir oracle says so, otherwise
enumerates the immediate children. -/
def readdirSync (fs : FileSystem) (p : FsPath) : Except Unit (List String) :=
  if p ∈ fs.readdirFails then .error () else .ok (childNames fs p)

/-- The filesystem after a successful recursive `mkdir` of `p`: the missing
non-empty prefixes of `p` (including `p` itself) are created as
directories. -/
def mkdirResult (fs : FileSystem) (p : FsPath) : FileSystem :=
  { fs with
    nodes := fs.nodes ++
      (((List.range p.length).map (fun n => p.take (n + 1))).filter
        (fun q => ¬ existsSync fs q)).map (fun q => (q, FsKind.dir)) }

/-- `fs.mkdirSync(p, { recursive: true })`: throws when the mkdir oracle says
so, otherwise creates the missing prefixes of `p` as directories. -/
def mkdirSyncRecursive (fs : FileSystem) (p : FsPath) : Except Unit FileSystem :=
  if fs.mkdirFails then .error () else .ok (mkdirResult fs p)

/-- `vscode.TreeItemCollapsibleState`. -/
inductive TreeItemCollapsibleState where
  | none
  | collapsed
  | expanded
deriving DecidableEq, Repr

/-- `vscode.ThemeIcon`, identified by its id string. -/
structure ThemeIcon where
  id : String
deriving DecidableEq, Repr

/-- A `vscode.Command` attached to a tree item; the source only ever builds
`vscode.open` commands whose single argument is a file path. -/
structure ItemCommand where
  command : String
  title : String
  argumentPath : FsPath
deriving DecidableEq, Repr

/-- The `FileItem` tree item of `projectManagementTreeView.ts`: label, full
path and collapsible state from the constructor, plus the fields the source
assigns (`iconPath`, `command`, `contextValue`, and the `description` /
`tooltip` that `readDirectory` sets on files). -/
structure FileItem where
  label : String
  fullPath : FsPath
  collapsibleState : TreeItemCollapsibleState
  iconPath : ThemeIcon
  command : Option ItemCommand
  contextValue : String
  description : Option String
  tooltip : Option String
deriving DecidableEq, Repr

/-- The `FileItem` constructor (lines 82-107 of the tree view source): the
icon is `file` for leaves and `folder` otherwise, and leaves carry a
`vscode.open` command for their path. -/
def FileItem.make (label : String) (fullPath : FsPath)
    (collapsibleState : TreeItemCollapsibleState) : FileItem :=
  { label := label
    fullPath := fullPath
    collapsibleState := collapsibleState
    iconPath := if collapsibleState = .none then ⟨"file"⟩ else ⟨"folder"⟩
    command := if collapsibleState = .none then
        some { command := "vscode.open", title := "Open File",
               argumentPath := fullPath }
      else Option.none
    contextValue := "fileItem"
    description := Option.none
    tooltip := Option.none }

/-- `(size / 1024).toFixed(2)`: the size in kilobytes rounded to two decimal
places (half up; JavaScript computes this through binary floating point,
which agrees except on representation-error ties, which no claim exercises). -/
def kbFixed2 (size : Nat) : String :=
  let hundredths := (size * 100 * 2 + 1024) / (1024 * 2)
  let frac := hundredths % 100
  toString (hundredths / 100) ++ "." ++
    (if frac < 10 then "0" else "") ++ toString frac

/-- The body of one `items.map` step in `readDirectory` (lines 56-74): stat
the child, build the `FileItem`, and for files set the size description and
tooltip.  A stat throw propagates to the enclosing `try`. -/
def readDirectoryItem (fs : FileSystem) (dir : FsPath) (item : String) :
    Except Unit FileItem :=
  let fullPath := dir ++ [item]
  match statSync fs fullPath with
  | .error e => .error e
  | .ok stats =>
    let isDirectory := stats.isDirectory
    let treeItem := FileItem.make item fullPath
      (if isDirectory then .collapsed else .none)
    if !isDirectory then
      .ok { treeItem with
        description := some (kbFixed2 stats.size ++ " KB")
        tooltip := some (item ++ " - " ++ kbFixed2 stats.size ++ " KB") }
    else
      .ok treeItem

/-- JavaScript `array.map(f)` when `f` can throw: the elements are mapped
left to right and the first throw aborts the whole map. -/
def mapThrow {α β : Type} (f : α → Except Unit β) : List α → Except Unit (List β)
  | [] => .ok []
  | a :: l =>
    match f a with
    | .error e => .error e
    | .ok b =>
      match mapThrow f l with
      | .error e => .error e
      | .ok bs => .ok (b :: bs)

/-- The `try` block of `readDirectory` (lines 54-74): enumerate the
directory and map each entry to a `FileItem`; any throw escapes. -/
def readDirectoryTry (fs : FileSystem) (dir : FsPath) :
    Except Unit (List FileItem) :=
  match readdirSync fs dir with
  | .error e => .error e
  | .ok items => mapThrow (readDirectoryItem fs dir) items

/-- `ProjectManagementTreeDataProvider.readDirectory` (lines 49-79): empty
for an absent path; otherwise the `try` block with every error caught,
logged and turned into the empty list. -/
def readDirectory (fs : FileSystem) (dir : FsPath) : List FileItem :=
  if ¬ existsSync fs dir then [] else
    match readDirectoryTry fs dir with
    | .ok items => items
    | .error _ => []

/-- The fixed subfolder listed at the root of the tree. -/
def projectManagementDir (workspaceRoot : FsPath) : FsPath :=
  workspaceRoot ++ ["project_management"]

/-- `ProjectManagementTreeDataProvider.getChildren` (lines 19-47), with the
filesystem passed explicitly since `mkdirSync` mutates it: an empty
`workspaceRoot` (falsy in the source) yields no children; the root node
reads the fixed `project_management` subfolder, creating it first when
absent (a creation failure yields no children); any other absent path
yields no children.  Returns the filesystem after the call together with
the children.  (The informational notifications the source shows are not
modelled.) -/
def getChildren (fs : FileSystem) (workspaceRoot : FsPath)
    (element : Option FileItem) : FileSystem × List FileItem :=
  if workspaceRoot = [] then (fs, []) else
    let directoryToRead := match element with
      | some e => e.fullPath
      | none => projectManagementDir workspaceRoot
    if ¬ existsSync fs directoryToRead then
      if directoryToRead = projectManagementDir workspaceRoot then
        match mkdirSyncRecursive fs directoryToRead with
        | .ok fs' => (fs', readDirectory fs' directoryToRead)
        | .error _ => (fs, [])
      else (fs, [])
    else (fs, readDirectory fs directoryToRead)

/-! ### The chat participant handler and the overview renderer -/

/-- A file returned by `vscode.workspace.findFiles`: a `vscode.Uri`, of which
the source reads `path` (the forward-slash URI path) and `fsPath` (the
platform file-system path). -/
structure FoundFile where
  path : String
  fsPath : String
deriving DecidableEq, Repr

/-- JavaScript `String.prototype.includes` for the non-empty search strings
the source uses. -/
def jsIncludes (s sub : String) : Bool :=
  decide (sub.toList <:+: s.toList)

/-- JavaScript `String.prototype.endsWith`. -/
def jsEndsWith (s suffix : String) : Bool :=
  decide (suffix.toList <:+ s.toList)

/-- JavaScript `array.pop()` after `split('/')`: the last component of the
path (split of a string is never empty). -/
def lastPathSegment (fsPath : String) : String :=
  (fsPath.splitOn "/").getLastD ""

/-- The include glob of the overview file search
(`**/*.\x7bjson,ts,js,md\x7d`). -/
def findFilesInclude : String := "**/*.\x7bjson,ts,js,md\x7d"

/-- The exclude glob of the overview file search. -/
def findFilesExclude : String := "**/node_modules/**"

/-- `vscode.workspace.findFiles(include, exclude, maxResults)`: of the files
the host finds matching the globs, at most `maxResults` are returned. -/
def findFilesModel (found : List FoundFile) (maxResults : Nat) :
    List FoundFile :=
  found.take maxResults

/-- `files.filter(file => file.path.endsWith('package.json'))`. -/
def packageJsonFiles (files : List FoundFile) : List FoundFile :=
  files.filter (fun file => jsEndsWith file.path "package.json")

/-- `files.filter(file => file.path.endsWith('.ts') &&
!file.path.includes('node_modules'))`. -/
def tsFiles (files : List FoundFile) : List FoundFile :=
  files.filter (fun file =>
    jsEndsWith file.path ".ts" && !(jsIncludes file.path "node_modules"))

/-- `tsFiles.filter(f => f.fsPath.includes('main') ||
f.fsPath.includes('extension') || f.fsPath.includes('index'))`. -/
def mainFiles (ts : List FoundFile) : List FoundFile :=
  ts.filter (fun f =>
    jsIncludes f.fsPath "main" || jsIncludes f.fsPath "extension" ||
      jsIncludes f.fsPath "index")

/-- `files.filter(file => file.path.toLowerCase().includes('readme.md'))`. -/
def readmeFiles (files : List FoundFile) : List FoundFile :=
  files.filter (fun file => jsIncludes file.path.toLower "readme.md")

/-- The TypeScript files the overview actually lists: `mainFiles.slice(0, 5)`. -/
def tsShownFiles (files : List FoundFile) : List FoundFile :=
  (mainFiles (tsFiles files)).take 5

/-- The `... and N more TypeScript files` note: emitted exactly when
`tsFiles.length > 5`, with `N = tsFiles.length - 5`. -/
def tsMoreNote (files : List FoundFile) : Option Nat :=
  if (tsFiles files).length > 5 then some ((tsFiles files).length - 5)
  else Option.none

/-- One event written to the `vscode.ChatResponseStream`. -/
inductive StreamEvent where
  | markdown (text : String)
  | reference (file : FoundFile)
deriving DecidableEq, Repr

/-- A workspace folder: the source reads `name` and `uri.fsPath`. -/
structure WorkspaceFolder where
  name : String
  fsPath : String
deriving DecidableEq, Repr

/-- A repository of the git extension API: the source reads
`rootUri.fsPath` and `state.HEAD?.name`. -/
structure GitRepo where
  rootFsPath : String
  headName : Option String
deriving DecidableEq, Repr

/-- An error thrown by the language-model request or its streamed response:
either the known `vscode.LanguageModelError` (with `message` and `code`) or
anything else. -/
inductive ChatError where
  | languageModelError (message : String) (code : String)
  | unknown (message : String)
deriving DecidableEq, Repr

/-- The host environment a single chat request runs against. -/
structure ChatEnv where
  workspaceFolders : List WorkspaceFolder
  /-- Result of reaching the git extension API inside the overview `try`:
  an exception, or the repositories of the API when the extension and API
  are present (`Option.none` models an absent extension or a null API). -/
  gitApi : Except Unit (Option (List GitRepo))
  /-- The files the host would find for the overview search globs, before
  the `maxResults` cap; `findFilesThrows` makes the awaited call throw. -/
  findFilesMatches : List FoundFile
  findFilesThrows : Bool
  /-- The text fragments `chatResponse.text` yields, in order, followed by
  `modelOutcome`: `Option.none` when the request and stream complete, or the
  error thrown by `sendRequest` / mid-stream. -/
  modelFragments : List String
  modelOutcome : Option ChatError
deriving Repr

/-- A `vscode.ChatRequest`: the sub-command, if any, and the prompt text. -/
structure ChatRequest where
  command : Option String
  prompt : String
deriving DecidableEq, Repr

/-- The workspace-folders section of the overview (lines 15-21 of the chat
participant module). -/
def workspaceFoldersEvents (folders : List WorkspaceFolder) : List StreamEvent :=
  if folders.length > 0 then
    .markdown "## Workspace Folders\n\n" ::
      folders.map (fun folder =>
        .markdown ("- **" ++ folder.name ++ "**: " ++ folder.fsPath ++ "\n"))
  else []

/-- The git section of the overview (lines 23-38): any exception while
querying the git extension is caught and the section is omitted. -/
def gitEvents : Except Unit (Option (List GitRepo)) → List StreamEvent
  | .error _ => []
  | .ok Option.none => []
  | .ok (some repos) =>
    if repos.length > 0 then
      .markdown "\n## Git Repositories\n\n" ::
        repos.flatMap (fun repo =>
          [.markdown ("- **Repository**: " ++ repo.rootFsPath),
           .markdown ("  - Current Branch: " ++ repo.headName.getD "Unknown")])
    else []

/-- A clickable file entry: `- [name](fsPath)` markdown plus a
`stream.reference`. -/
def fileEntryEvents (file : FoundFile) : List StreamEvent :=
  [.markdown ("- [" ++ lastPathSegment file.fsPath ++ "](" ++ file.fsPath ++ ")\n"),
   .reference file]

/-- The package-files bucket (lines 48-56). -/
def packageSectionEvents (files : List FoundFile) : List StreamEvent :=
  if (packageJsonFiles files).length > 0 then
    .markdown "### Package Files\n\n" ::
      (packageJsonFiles files).flatMap fileEntryEvents
  else []

/-- The TypeScript-files bucket (lines 58-70): the first five
hinted-name files, then the `... and N more` note whenever more than five
TypeScript files were found in the capped search results. -/
def tsSectionEvents (files : List FoundFile) : List StreamEvent :=
  if (tsFiles files).length > 0 then
    .markdown "\n### TypeScript Files\n\n" ::
      (tsShownFiles files).flatMap fileEntryEvents ++
        (match tsMoreNote files with
         | some n =>
           [.markdown ("- ... and " ++ toString n ++ " more TypeScript files\n")]
         | Option.none => [])
  else []

/-- The readme bucket (lines 72-80). -/
def readmeSectionEvents (files : List FoundFile) : List StreamEvent :=
  if (readmeFiles files).length > 0 then
    .markdown "\n### Documentation\n\n" ::
      (readmeFiles files).flatMap fileEntryEvents
  else []

/-- The project-files section of the overview (lines 40-84): runs only when
a workspace folder is open, searches with a cap of 100 results, and emits
the three buckets; any exception (the awaited search throwing) is caught
and the section is cut short. -/
def projectFilesEvents (env : ChatEnv) : List StreamEvent :=
  if env.workspaceFolders.length > 0 then
    if env.findFilesThrows then [] else
      let files := findFilesModel env.findFilesMatches 100
      [.markdown "\n## Project Files\n\n",
       .markdown "Here are some important files in your project:\n\n"] ++
        packageSectionEvents files ++ tsSectionEvents files ++
          readmeSectionEvents files
  else []

/-- The next-steps epilogue of the overview (lines 86-91). -/
def nextStepsEvents : List StreamEvent :=
  [.markdown "\n## Next Steps\n\n",
   .markdown "Here are some suggestions for managing your project:\n\n",
   .markdown "1. **Review the codebase** - Look through the main files to understand the project structure\n",
   .markdown "2. **Check dependencies** - Review the package.json file for dependencies and scripts\n",
   .markdown "3. **Run tests** - If the project has tests, run them to ensure everything works\n",
   .markdown "4. **Update documentation** - Ensure the README and other documentation is up to date\n"]

/-- Everything the `overview` command streams (lines 12-91). -/
def overviewEvents (env : ChatEnv) : List StreamEvent :=
  .markdown "# Project Management Overview\n\n" ::
    workspaceFoldersEvents env.workspaceFolders ++ gitEvents env.gitApi ++
      projectFilesEvents env ++ nextStepsEvents

/-- The apology streamed when the completion service throws a
`LanguageModelError` (line 108). -/
def apologyMessage : String :=
  "I encountered an issue helping with project management. Please try again with a more specific question."

/-- The fixed first message sent to the completion service (lines 95-97);
its exact text is irrelevant to the claims. -/
def systemPromptText : String :=
  "You are a project management assistant. Your role is to help the user manage their software project."

/-- The value a completed chat request resolves to:
`{ metadata: { command: request.command || '' } }`. -/
structure ChatResult where
  metadataCommand : String
deriving DecidableEq, Repr

/-- One run of the chat handler: the stream events emitted, how many times
`request.model.sendRequest` was invoked, and the handler's outcome (its
return value, or the error it re-threw). -/
structure HandlerRun where
  stream : List StreamEvent
  sendRequestCount : Nat
  sentMessages : List String
  result : Except ChatError ChatResult
deriving Repr

/-- The chat request handler registered by
`registerProjectManagerChatParticipant` (lines 9-116): the `overview`
sub-command streams the structured summary; otherwise the prompt is sent to
the completion service once and its fragments are streamed back, with a
`LanguageModelError` turned into an apology and any other error re-thrown.
Either completed path returns `request.command || ''` as metadata. -/
def chatHandler (request : ChatRequest) (env : ChatEnv) : HandlerRun :=
  if request.command = some "overview" then
    { stream := overviewEvents env
      sendRequestCount := 0
      sentMessages := []
      result := .ok { metadataCommand := request.command.getD "" } }
  else
    let fragmentEvents := env.modelFragments.map StreamEvent.markdown
    match env.modelOutcome with
    | Option.none =>
      { stream := fragmentEvents
        sendRequestCount := 1
        sentMessages := [systemPromptText, request.prompt]
        result := .ok { metadataCommand := request.command.getD "" } }
    | some (.languageModelError _ _) =>
      { stream := fragmentEvents ++ [.markdown apologyMessage]
        sendRequestCount := 1
        sentMessages := [systemPromptText, request.prompt]
        result := .ok { metadataCommand := request.command.getD "" } }
    | some (.unknown message) =>
      { stream := fragmentEvents
        sendRequestCount := 1
        sentMessages := [systemPromptText, request.prompt]
        result := .error (.unknown message) }

/-! ### The get-file-content command -/

/-- An observable effect of `ProjectManagerProvider.getFileContent`, in
order of occurrence. -/
inductive FileEffect where
  | clipboardWrite (text : String)
  | showError (message : String)
  | showInfo (message : String)
deriving DecidableEq, Repr

/-- The hardcoded path the command reads. -/
def combinedOutputPath : String := "X:/CombinedOutput.txt"

/-- `ProjectManagerProvider.getFileContent` (lines 41-61 of
`projectManager.ts`): an absent file yields an error notification; a read
failure is caught and yields an error notification (with the thrown
message); on success the content is written to the clipboard and then an
information notification is shown.  `readResult` is what
`fs.readFileSync(filePath, 'utf8')` does: the content, or the message of
the error it throws. -/
def getFileContent (fileExists : Bool) (readResult : Except String String) :
    List FileEffect :=
  if ¬ fileExists then
    [.showError ("File does not exist: " ++ combinedOutputPath)]
  else
    match readResult with
    | .error message => [.showError ("Error reading file: " ++ message)]
    | .ok fileContent =>
      [.clipboardWrite fileContent,
       .showInfo ("Content from " ++ combinedOutputPath ++
         " has been copied to clipboard")]

/-! ### Helper lemmas -/

/-- `mapThrow` succeeds and is the plain `map` when every element succeeds. -/
theorem mapThrow_ok_of_forall_ok {α β : Type} (l : List α)
    (f : α → Except Unit β) (g : α → β) (h : ∀ a ∈ l, f a = .ok (g a)) :
    mapThrow f l = .ok (l.map g) := by
  induction l with
  | nil => simp [mapThrow]
  | cons a l ih =>
    have ha := h a (List.mem_cons_self a l)
    have hl := ih (fun b hb => h b (List.mem_cons_of_mem a hb))
    simp [mapThrow, ha, hl]

/-- `mapThrow` fails as soon as any element fails. -/
theorem mapThrow_error_of_mem {α β : Type} (l : List α)
    (f : α → Except Unit β) (h : ∃ a ∈ l, f a = .error ()) :
    mapThrow f l = .error () := by
  induction l with
  | nil => simp at h
  | cons a l ih =>
    rcases h with ⟨b, hb, hfb⟩
    rcases List.mem_cons.mp hb with rfl | hbl
    · simp [mapThrow, hfb]
    · cases hfa : f a with
      | error e => cases e; simp [mapThrow, hfa]
      | ok v =>
        have := ih ⟨b, hbl, hfb⟩
        simp [mapThrow, hfa, this]

/-! ### Chat handler claims -/

/-- **C2.** For every chat request: with the sub-command `overview` the
handler streams the structured overview summary and never invokes
`request.model.sendRequest`; with no sub-command it invokes the completion
service exactly once and, when the response completes, streams exactly the
returned fragments in order. -/
theorem chatHandler_overview_vs_model (request : ChatRequest) (env : ChatEnv) :
    (request.command = some "overview" →
      (chatHandler request env).sendRequestCount = 0 ∧
      (chatHandler request env).stream = overviewEvents env) ∧
    (request.command = Option.none →
      (chatHandler request env).sendRequestCount = 1 ∧
      (env.modelOutcome = Option.none →
        (chatHandler request env).stream
          = env.modelFragments.map StreamEvent.markdown)) := by
  constructor
  · intro hcmd
    simp [chatHandler, hcmd]
  · intro hcmd
    have hne : ¬ request.command = some "overview" := by simp [hcmd]
    cases houtcome : env.modelOutcome with
    | none => simp [chatHandler, hne, houtcome]
    | some e =>
      cases e with
      | languageModelError m c => simp [chatHandler, hne, houtcome]
      | unknown m => simp [chatHandler, hne, houtcome]

/-- Witness for `chatHandler_overview_vs_model` at concrete requests. -/
theorem chatHandler_overview_vs_model_witness :
    (chatHandler { command := some "overview", prompt := "hi" }
        { workspaceFolders := [], gitApi := .ok Option.none,
          findFilesMatches := [], findFilesThrows := false,
          modelFragments := ["a", "b"], modelOutcome := Option.none
          }).sendRequestCount = 0 ∧
    (chatHandler { command := Option.none, prompt := "hi" }
        { workspaceFolders := [], gitApi := .ok Option.none,
          findFilesMatches := [], findFilesThrows := false,
          modelFragments := ["a", "b"], modelOutcome := Option.none
          }).stream = [.markdown "a", .markdown "b"] :=
  ⟨((chatHandler_overview_vs_model { command := some "overview", prompt := "hi" }
      { workspaceFolders := [], gitApi := .ok Option.none,
        findFilesMatches := [], findFilesThrows := false,
        modelFragments := ["a", "b"], modelOutcome := Option.none }).1 rfl).1,
   by
    have h := ((chatHandler_overview_vs_model { command := Option.none, prompt := "hi" }
      { workspaceFolders := [], gitApi := .ok Option.none,
        findFilesMatches := [], findFilesThrows := false,
        modelFragments := ["a", "b"], modelOutcome := Option.none }).2 rfl).2 rfl
    simpa using h⟩

/-- **C5.** For every error the completion service throws during a chat
request: a `LanguageModelError` is answered with the user-facing apology
message appended to the stream and the handler still completes normally,
while any other error is re-thrown to the host. -/
theorem chatHandler_error_classification (request : ChatRequest) (env : ChatEnv)
    (hcmd : request.command ≠ some "overview") :
    (∀ message code,
      env.modelOutcome = some (.languageModelError message code) →
        (chatHandler request env).result
            = .ok { metadataCommand := request.command.getD "" } ∧
        (chatHandler request env).stream
            = env.modelFragments.map StreamEvent.markdown
                ++ [.markdown apologyMessage]) ∧
    (∀ message,
      env.modelOutcome = some (.unknown message) →
        (chatHandler request env).result = .error (.unknown message)) := by
  constructor
  · intro message code houtcome
    simp [chatHandler, hcmd, houtcome]
  · intro message houtcome
    simp [chatHandler, hcmd, houtcome]

/-- Witness for `chatHandler_error_classification`: a `LanguageModelError`
yields the apology and a completed run, an unknown error is re-thrown. -/
theorem chatHandler_error_classification_witness :
    ((chatHandler { command := Option.none, prompt := "p" }
        { workspaceFolders := [], gitApi := .ok Option.none,
          findFilesMatches := [], findFilesThrows := false,
          modelFragments := [],
          modelOutcome := some (.languageModelError "m" "c") }).stream
      = [.markdown apologyMessage]) ∧
    ((chatHandler { command := Option.none, prompt := "p" }
        { workspaceFolders := [], gitApi := .ok Option.none,
          findFilesMatches := [], findFilesThrows := false,
          modelFragments := [],
          modelOutcome := some (.unknown "boom") }).result
      = .error (.unknown "boom")) :=
  ⟨by
    have h := ((chatHandler_error_classification
      { command := Option.none, prompt := "p" }
      { workspaceFolders := [], gitApi := .ok Option.none,
        findFilesMatches := [], findFilesThrows := false,
        modelFragments := [],
        modelOutcome := some (.languageModelError "m" "c") }
      (by simp)).1 "m" "c" rfl).2
    simpa using h,
   ((chatHandler_error_classification
      { command := Option.none, prompt := "p" }
      { workspaceFolders := [], gitApi := .ok Option.none,
        findFilesMatches := [], findFilesThrows := false,
        modelFragments := [],
        modelOutcome := some (.unknown "boom") }
      (by simp)).2 "boom" rfl)⟩

/-- **C8.** Whenever the handler completes (with or without a sub-command,
on the success path and on the handled-error path alike), its return value
carries the sub-command used (the empty string when there was none). -/
theorem chatHandler_metadata_command (request : ChatRequest) (env : ChatEnv)
    (out : ChatResult)
    (h : (chatHandler request env).result = .ok out) :
    out.metadataCommand = request.command.getD "" := by
  by_cases hcmd : request.command = some "overview"
  · simp [chatHandler, hcmd] at h
    simp [← h, hcmd]
  · cases houtcome : env.modelOutcome with
    | none =>
      simp [chatHandler, hcmd, houtcome] at h
      simp [← h]
    | some e =>
      cases e with
      | languageModelError m c =>
        simp [chatHandler, hcmd, houtcome] at h
        simp [← h]
      | unknown m =>
        simp [chatHandler, hcmd, houtcome] at h

/-- Witness for `chatHandler_metadata_command` on the handled-error path of
a request without a sub-command. -/
theorem chatHandler_metadata_command_witness :
    ({ metadataCommand := "" } : ChatResult).metadataCommand
      = (Option.none : Option String).getD "" :=
  chatHandler_metadata_command { command := Option.none, prompt := "p" }
    { workspaceFolders := [], gitApi := .ok Option.none,
      findFilesMatches := [], findFilesThrows := false,
      modelFragments := ["x"],
      modelOutcome := some (.languageModelError "m" "c") }
    { metadataCommand := "" } rfl

/-! ### Get-file-content command claim -/

/-- **C10.** The get-file-content command writes the clipboard only after
the existence check and the read both succeed; on either failure it shows an
error notification and never touches the clipboard; on success the
information notification comes after the clipboard write. -/
theorem getFileContent_clipboard_guard (fileExists : Bool)
    (readResult : Except String String) :
    (∀ text, FileEffect.clipboardWrite text ∈ getFileContent fileExists readResult →
      fileExists = true ∧ readResult = .ok text) ∧
    (fileExists = false →
      getFileContent fileExists readResult
        = [.showError ("File does not exist: " ++ combinedOutputPath)]) ∧
    (∀ message, readResult = .error message → fileExists = true →
      getFileContent fileExists readResult
        = [.showError ("Error reading file: " ++ message)]) ∧
    (∀ content, readResult = .ok content → fileExists = true →
      getFileContent fileExists readResult
        = [.clipboardWrite content,
           .showInfo ("Content from " ++ combinedOutputPath ++
             " has been copied to clipboard")]) := by
  refine ⟨?_, ?_, ?_, ?_⟩
  · intro text hmem
    cases fileExists with
    | false => simp [getFileContent] at hmem
    | true =>
      cases readResult with
      | error m => simp [getFileContent] at hmem
      | ok c => simp [getFileContent] at hmem; simp [hmem]
  · intro hfe; subst hfe; simp [getFileContent]
  · intro message hrr hfe; subst hrr; subst hfe; simp [getFileContent]
  · intro content hrr hfe; subst hrr; subst hfe; simp [getFileContent]

/-- Witness for `getFileContent_clipboard_guard` at a successful read. -/
theorem getFileContent_clipboard_guard_witness :
    getFileContent true (.ok "hello")
      = [.clipboardWrite "hello",
         .showInfo ("Content from " ++ combinedOutputPath ++
           " has been copied to clipboard")] :=
  (getFileContent_clipboard_guard true (.ok "hello")).2.2.2 "hello" rfl rfl

/-! ### Directory listing claims -/

/-- How `readDirectory` classifies a path: the `isDirectory()` of a
successful stat (irrelevant default on a failed one). -/
def statIsDir (fs : FileSystem) (p : FsPath) : Bool :=
  match statSync fs p with
  | .ok stats => stats.isDirectory
  | .error _ => false

/-- The `size` of a successful stat (irrelevant default on a failed one). -/
def statSize (fs : FileSystem) (p : FsPath) : Nat :=
  match statSync fs p with
  | .ok stats => stats.size
  | .error _ => 0

/-- The `FileItem` that `readDirectory` builds for child `item` of `dir`
when its stat succeeds. -/
def childItem (fs : FileSystem) (dir : FsPath) (item : String) : FileItem :=
  if statIsDir fs (dir ++ [item]) then
    FileItem.make item (dir ++ [item]) .collapsed
  else
    { FileItem.make item (dir ++ [item]) .none with
      description := some (kbFixed2 (statSize fs (dir ++ [item])) ++ " KB")
      tooltip := some (item ++ " - " ++
        kbFixed2 (statSize fs (dir ++ [item])) ++ " KB") }

/-- A child whose stat succeeds is mapped to its `childItem`. -/
theorem readDirectoryItem_eq_childItem (fs : FileSystem) (dir : FsPath)
    (item : String) (stats : Stats)
    (hok : statSync fs (dir ++ [item]) = .ok stats) :
    readDirectoryItem fs dir item = .ok (childItem fs dir item) := by
  have hdir : statIsDir fs (dir ++ [item]) = stats.isDirectory := by
    simp [statIsDir, hok]
  have hsize : statSize fs (dir ++ [item]) = stats.size := by
    simp [statSize, hok]
  cases hd : stats.isDirectory with
  | true =>
    simp [readDirectoryItem, childItem, hok, hdir, hd]
  | false =>
    simp [readDirectoryItem, childItem, hok, hdir, hsize, hd]

/-- `List.lookup` finds every present key. -/
theorem lookup_isSome_of_mem {β : Type} (l : List (FsPath × β)) (k : FsPath)
    (v : β) (hmem : (k, v) ∈ l) : (l.lookup k).isSome := by
  induction l with
  | nil => exact absurd hmem (List.not_mem_nil _)
  | cons ab l ih =>
    obtain ⟨a, b⟩ := ab
    rcases List.mem_cons.mp hmem with heq | htail
    · cases heq
      simp only [List.lookup, beq_self_eq_true]
      rfl
    · by_cases hk : k = a
      · subst hk
        simp only [List.lookup, beq_self_eq_true]
        rfl
      · have hbeq : (k == a) = false := by simpa using hk
        simp only [List.lookup, hbeq]
        exact ih htail

/-- Every name listed by `childNames` is an existing key of the node table. -/
theorem lookup_isSome_of_mem_childNames (fs : FileSystem) (dir : FsPath)
    (item : String) (h : item ∈ childNames fs dir) :
    (fs.nodes.lookup (dir ++ [item])).isSome := by
  unfold childNames at h
  rcases List.mem_filterMap.mp h with ⟨qk, hqk, hname⟩
  unfold childName at hname
  by_cases hcond : qk.1 ≠ [] ∧ (qk.1).dropLast = dir
  · rcases hcond with ⟨hne, hdrop⟩
    rw [if_pos ⟨hne, hdrop⟩] at hname
    have hlast : qk.1.getLast hne = item := by
      have := List.getLast?_eq_getLast qk.1 hne
      rw [this] at hname
      exact Option.some.inj hname
    have hq : qk.1 = dir ++ [item] := by
      have hsplit := List.dropLast_append_getLast hne
      rw [hdrop, hlast] at hsplit
      exact hsplit.symm
    have hmem : (dir ++ [item], qk.2) ∈ fs.nodes := by
      rw [← hq]
      exact hqk
    exact lookup_isSome_of_mem fs.nodes (dir ++ [item]) qk.2 hmem
  · rw [if_neg hcond] at hname
    exact absurd hname (by simp)

/-- A listed child whose stat oracle does not fail stats successfully. -/
theorem statSync_ok_of_mem_childNames (fs : FileSystem) (dir : FsPath)
    (item : String) (hmem : item ∈ childNames fs dir)
    (hst : dir ++ [item] ∉ fs.statFails) :
    ∃ stats, statSync fs (dir ++ [item]) = .ok stats := by
  have hsome := lookup_isSome_of_mem_childNames fs dir item hmem
  unfold statSync
  rw [if_neg hst]
  cases hlk : fs.nodes.lookup (dir ++ [item]) with
  | none => rw [hlk] at hsome; simp at hsome
  | some k =>
    cases k with
    | file n => exact ⟨_, rfl⟩
    | dir => exact ⟨_, rfl⟩

/-- When enumeration succeeds the `try` block is the `mapThrow` over the
children. -/
theorem readDirectoryTry_of_readdir_ok (fs : FileSystem) (dir : FsPath)
    (hrd : dir ∉ fs.readdirFails) :
    readDirectoryTry fs dir
      = mapThrow (readDirectoryItem fs dir) (childNames fs dir) := by
  unfold readDirectoryTry readdirSync
  rw [if_neg hrd]

/-- When enumeration throws, the `try` block throws. -/
theorem readDirectoryTry_of_readdir_error (fs : FileSystem) (dir : FsPath)
    (hrd : dir ∈ fs.readdirFails) :
    readDirectoryTry fs dir = .error () := by
  unfold readDirectoryTry readdirSync
  rw [if_pos hrd]

/-- When the directory exists, enumeration succeeds and every child stat
succeeds, the listing is the pointwise `childItem` image of the children. -/
theorem readDirectory_eq_map (fs : FileSystem) (dir : FsPath)
    (hex : existsSync fs dir = true)
    (hrd : dir ∉ fs.readdirFails)
    (hst : ∀ item ∈ childNames fs dir, dir ++ [item] ∉ fs.statFails) :
    readDirectory fs dir = (childNames fs dir).map (childItem fs dir) := by
  have hmap : mapThrow (readDirectoryItem fs dir) (childNames fs dir)
      = .ok ((childNames fs dir).map (childItem fs dir)) := by
    apply mapThrow_ok_of_forall_ok
    intro item hmem
    rcases statSync_ok_of_mem_childNames fs dir item hmem (hst item hmem) with
      ⟨stats, hok⟩
    exact readDirectoryItem_eq_childItem fs dir item stats hok
  have htry := readDirectoryTry_of_readdir_ok fs dir hrd
  simp [readDirectory, hex, htry, hmap]

/-- **C4.** For every existing directory whose enumeration and per-child
stats succeed: the listing has exactly one record per immediate child, the
children statting as directories are exactly the records marked
`collapsed`, the children statting as files are exactly the records marked
`none`, and every record marked `none` carries a kilobyte size
description. -/
theorem readDirectory_partitions_children (fs : FileSystem) (dir : FsPath)
    (hex : existsSync fs dir = true)
    (hrd : dir ∉ fs.readdirFails)
    (hst : ∀ item ∈ childNames fs dir, dir ++ [item] ∉ fs.statFails) :
    (readDirectory fs dir).length = (childNames fs dir).length ∧
    (readDirectory fs dir).countP
        (fun it => it.collapsibleState = TreeItemCollapsibleState.collapsed)
      = (childNames fs dir).countP (fun item => statIsDir fs (dir ++ [item])) ∧
    (readDirectory fs dir).countP
        (fun it => it.collapsibleState = TreeItemCollapsibleState.none)
      = (childNames fs dir).countP (fun item => !statIsDir fs (dir ++ [item])) ∧
    (∀ it ∈ readDirectory fs dir,
      it.collapsibleState = TreeItemCollapsibleState.none →
        ∃ size, it.description = some (kbFixed2 size ++ " KB")) := by
  have hmap := readDirectory_eq_map fs dir hex hrd hst
  have hstate : ∀ item, (childItem fs dir item).collapsibleState
      = (if statIsDir fs (dir ++ [item]) then TreeItemCollapsibleState.collapsed
         else TreeItemCollapsibleState.none) := by
    intro item
    unfold childItem
    by_cases hd : statIsDir fs (dir ++ [item])
    · simp [hd, FileItem.make]
    · simp [hd, FileItem.make]
  refine ⟨?_, ?_, ?_, ?_⟩
  · simp [hmap]
  · rw [hmap, List.countP_map]
    apply List.countP_congr
    intro item _
    simp only [Function.comp_apply, hstate item]
    by_cases hd : statIsDir fs (dir ++ [item]) <;> simp [hd]
  · rw [hmap, List.countP_map]
    apply List.countP_congr
    intro item _
    simp only [Function.comp_apply, hstate item]
    by_cases hd : statIsDir fs (dir ++ [item]) <;> simp [hd]
  · intro it hit hnone
    rw [hmap] at hit
    rcases List.mem_map.mp hit with ⟨item, _, rfl⟩
    by_cases hd : statIsDir fs (dir ++ [item])
    · rw [hstate item] at hnone
      simp [hd] at hnone
    · exact ⟨statSize fs (dir ++ [item]), by simp [childItem, hd]⟩

/-- A sample filesystem for the listing witnesses: directory `d` holding a
2 KiB file and a subdirectory. -/
def sampleFs : FileSystem :=
  { nodes := [(["d"], .dir), (["d", "a.txt"], .file 2048), (["d", "sub"], .dir)]
    statFails := []
    readdirFails := []
    mkdirFails := false }

/-- Witness for `readDirectory_partitions_children` on `sampleFs`. -/
theorem readDirectory_partitions_children_witness :
    (readDirectory sampleFs ["d"]).length = (childNames sampleFs ["d"]).length ∧
    (readDirectory sampleFs ["d"]).countP
        (fun it => it.collapsibleState = TreeItemCollapsibleState.collapsed)
      = (childNames sampleFs ["d"]).countP
          (fun item => statIsDir sampleFs (["d"] ++ [item])) ∧
    (readDirectory sampleFs ["d"]).countP
        (fun it => it.collapsibleState = TreeItemCollapsibleState.none)
      = (childNames sampleFs ["d"]).countP
          (fun item => !statIsDir sampleFs (["d"] ++ [item])) ∧
    (∀ it ∈ readDirectory sampleFs ["d"],
      it.collapsibleState = TreeItemCollapsibleState.none →
        ∃ size, it.description = some (kbFixed2 size ++ " KB")) :=
  readDirectory_partitions_children sampleFs ["d"] (by decide) (by decide)
    (by decide)

/-- **C6.** Any I/O error during a directory listing — the enumeration
throwing or any child stat throwing — is caught and the listing degrades
to the empty result. -/
theorem readDirectory_io_error_empty (fs : FileSystem) (dir : FsPath)
    (h : dir ∈ fs.readdirFails ∨
      ∃ item ∈ childNames fs dir, dir ++ [item] ∈ fs.statFails) :
    readDirectory fs dir = [] := by
  by_cases hex : existsSync fs dir
  · rcases h with hrd | ⟨item, hmem, hsf⟩
    · have htry := readDirectoryTry_of_readdir_error fs dir hrd
      simp [readDirectory, hex, htry]
    · by_cases hrd : dir ∈ fs.readdirFails
      · have htry := readDirectoryTry_of_readdir_error fs dir hrd
        simp [readDirectory, hex, htry]
      · have hitem : readDirectoryItem fs dir item = .error () := by
          simp [readDirectoryItem, statSync, hsf]
        have hmapE := mapThrow_error_of_mem (childNames fs dir)
          (readDirectoryItem fs dir) ⟨item, hmem, hitem⟩
        have htry := readDirectoryTry_of_readdir_ok fs dir hrd
        simp [readDirectory, hex, htry, hmapE]
  · simp [readDirectory, hex]

/-- Witness for `readDirectory_io_error_empty`: enumeration of `d` throws. -/
theorem readDirectory_io_error_empty_witness :
    readDirectory
      { nodes := [(["d"], .dir), (["d", "a.txt"], .file 10)]
        statFails := []
        readdirFails := [["d"]]
        mkdirFails := false } ["d"] = [] :=
  readDirectory_io_error_empty
    { nodes := [(["d"], .dir), (["d", "a.txt"], .file 10)]
      statFails := []
      readdirFails := [["d"]]
      mkdirFails := false } ["d"] (Or.inl (by decide))

/-- **C9.** When enumeration succeeds but stat-ing any single child throws,
the whole listing is discarded: the result is empty, not a partial list of
the children whose stats succeeded. -/
theorem readDirectory_all_or_nothing (fs : FileSystem) (dir : FsPath)
    (hex : existsSync fs dir = true)
    (hrd : dir ∉ fs.readdirFails)
    (h : ∃ item ∈ childNames fs dir, dir ++ [item] ∈ fs.statFails) :
    readDirectory fs dir = [] := by
  rcases h with ⟨item, hmem, hsf⟩
  have hitem : readDirectoryItem fs dir item = .error () := by
    simp [readDirectoryItem, statSync, hsf]
  have hmapE := mapThrow_error_of_mem (childNames fs dir)
    (readDirectoryItem fs dir) ⟨item, hmem, hitem⟩
  have htry := readDirectoryTry_of_readdir_ok fs dir hrd
  simp [readDirectory, hex, htry, hmapE]

/-- Witness for `readDirectory_all_or_nothing`: of two children of `d` only
`b.txt` fails to stat, yet nothing is listed. -/
theorem readDirectory_all_or_nothing_witness :
    readDirectory
      { nodes := [(["d"], .dir), (["d", "a.txt"], .file 10),
                  (["d", "b.txt"], .file 20)]
        statFails := [["d", "b.txt"]]
        readdirFails := []
        mkdirFails := false } ["d"] = [] :=
  readDirectory_all_or_nothing
    { nodes := [(["d"], .dir), (["d", "a.txt"], .file 10),
                (["d", "b.txt"], .file 20)]
      statFails := [["d", "b.txt"]]
      readdirFails := []
      mkdirFails := false } ["d"] (by decide) (by decide) (by decide)

/-! ### Tree provider claims about the root folder -/

/-- `List.lookup` over an append looks left first. -/
theorem lookup_append {β : Type} (l₁ l₂ : List (FsPath × β)) (k : FsPath) :
    (l₁ ++ l₂).lookup k = ((l₁.lookup k).or (l₂.lookup k)) := by
  induction l₁ with
  | nil => simp [List.lookup]
  | cons ab l ih =>
    obtain ⟨a, b⟩ := ab
    cases hk : (k == a) with
    | true =>
      simp only [List.cons_append, List.lookup, hk]
      rfl
    | false =>
      simp only [List.cons_append, List.lookup, hk]
      simpa using ih

/-- After a successful recursive `mkdir` of a missing non-empty path, the
path exists. -/
theorem existsSync_mkdirResult (fs : FileSystem) (p : FsPath) (hp : p ≠ [])
    (habs : existsSync fs p = false) :
    existsSync (mkdirResult fs p) p = true := by
  have hmem : (p, FsKind.dir) ∈
      (((List.range p.length).map (fun n => p.take (n + 1))).filter
        (fun q => ¬ existsSync fs q)).map (fun q => (q, FsKind.dir)) := by
    apply List.mem_map_of_mem
    apply List.mem_filter.mpr
    refine ⟨?_, by simp [habs]⟩
    apply List.mem_map.mpr
    refine ⟨p.length - 1, ?_, ?_⟩
    · apply List.mem_range.mpr
      have hlp : 0 < p.length := List.length_pos.mpr hp
      omega
    · have hlp : 0 < p.length := List.length_pos.mpr hp
      have heq : p.length - 1 + 1 = p.length := by omega
      rw [heq]
      exact List.take_length p
  have hnone : fs.nodes.lookup p = Option.none := by
    unfold existsSync at habs
    exact Option.not_isSome_iff_eq_none.mp (by simp [habs])
  unfold existsSync mkdirResult
  rw [lookup_append, hnone, Option.none_or]
  exact lookup_isSome_of_mem _ p FsKind.dir hmem

/-- A freshly created directory has no children: the created prefixes are
too short to be children of `p`, and by hypothesis nothing in the old table
was a child of `p`. -/
theorem childNames_mkdirResult_nil (fs : FileSystem) (p : FsPath)
    (hfresh : ∀ qk ∈ fs.nodes, (qk.1).dropLast ≠ p) :
    childNames (mkdirResult fs p) p = [] := by
  unfold childNames mkdirResult
  rw [List.filterMap_append]
  have h₁ : fs.nodes.filterMap (fun qk => childName p qk.1) = [] := by
    apply List.filterMap_eq_nil_iff.mpr
    intro qk hqk
    unfold childName
    rw [if_neg]
    intro hcond
    exact hfresh qk hqk hcond.2
  rw [h₁, List.nil_append]
  apply List.filterMap_eq_nil_iff.mpr
  intro qk hqk
  rcases List.mem_map.mp hqk with ⟨q, hq, rfl⟩
  have hqpre := (List.mem_filter.mp hq).1
  rcases List.mem_map.mp hqpre with ⟨n, hn, rfl⟩
  have hlt : n < p.length := List.mem_range.mp hn
  unfold childName
  rw [if_neg]
  intro hcond
  have hlen : ((p.take (n + 1)).dropLast).length = p.length :=
    congrArg List.length hcond.2
  rw [List.length_dropLast, List.length_take] at hlen
  omega

/-- A directory with no listed children lists as empty. -/
theorem readDirectory_nil_of_no_children (fs : FileSystem) (dir : FsPath)
    (h : childNames fs dir = []) : readDirectory fs dir = [] := by
  by_cases hex : existsSync fs dir
  · by_cases hrd : dir ∈ fs.readdirFails
    · have htry := readDirectoryTry_of_readdir_error fs dir hrd
      simp [readDirectory, hex, htry]
    · have htry := readDirectoryTry_of_readdir_ok fs dir hrd
      rw [h] at htry
      simp [readDirectory, hex, htry, mapThrow]
  · simp [readDirectory, hex]

/-- **C3.** When the tree provider is asked for the root's children and the
fixed `project_management` subfolder of the first workspace root is absent:
if the recursive creation fails, the result is the empty sequence and the
filesystem is untouched; if it succeeds, the folder exists afterward and
the result is exactly the listing of the folder just created — in
particular empty whenever nothing in the old filesystem lay under that
folder (the freshly-created case). -/
theorem getChildren_root_creates_missing (fs : FileSystem) (ws : FsPath)
    (hws : ws ≠ [])
    (habs : existsSync fs (projectManagementDir ws) = false) :
    (fs.mkdirFails = true → getChildren fs ws Option.none = (fs, [])) ∧
    (fs.mkdirFails = false →
      existsSync (getChildren fs ws Option.none).1
          (projectManagementDir ws) = true ∧
      (getChildren fs ws Option.none).2
        = readDirectory (getChildren fs ws Option.none).1
            (projectManagementDir ws) ∧
      ((∀ qk ∈ fs.nodes, (qk.1).dropLast ≠ projectManagementDir ws) →
        (getChildren fs ws Option.none).2 = [])) := by
  constructor
  · intro hmk
    simp [getChildren, hws, habs, mkdirSyncRecursive, hmk]
  · intro hmk
    have hgc : getChildren fs ws Option.none
        = (mkdirResult fs (projectManagementDir ws),
           readDirectory (mkdirResult fs (projectManagementDir ws))
             (projectManagementDir ws)) := by
      simp [getChildren, hws, habs, mkdirSyncRecursive, hmk]
    have hp : projectManagementDir ws ≠ [] := by
      simp [projectManagementDir]
    refine ⟨?_, ?_, ?_⟩
    · rw [hgc]
      exact existsSync_mkdirResult fs (projectManagementDir ws) hp habs
    · rw [hgc]
    · intro hfresh
      rw [hgc]
      exact readDirectory_nil_of_no_children _ _
        (childNames_mkdirResult_nil fs (projectManagementDir ws) hfresh)

/-- A one-folder workspace whose `project_management` folder is absent. -/
def sampleRootFs : FileSystem :=
  { nodes := [(["ws"], .dir)]
    statFails := []
    readdirFails := []
    mkdirFails := false }

/-- Witness for `getChildren_root_creates_missing` on `sampleRootFs`: the
folder exists afterward and the fresh listing is empty. -/
theorem getChildren_root_creates_missing_witness :
    existsSync (getChildren sampleRootFs ["ws"] Option.none).1
        (projectManagementDir ["ws"]) = true ∧
    (getChildren sampleRootFs ["ws"] Option.none).2 = [] :=
  have h := (getChildren_root_creates_missing sampleRootFs ["ws"]
    (by decide) (by decide)).2 rfl
  ⟨h.1, h.2.2 (by decide)⟩

/-- **C7.** Asking the tree provider for the children of a non-existent
path other than the fixed root folder returns the empty sequence (and, the
embedding being a total function, raises nothing) without touching the
filesystem. -/
theorem getChildren_nonroot_missing_empty (fs : FileSystem) (ws : FsPath)
    (e : FileItem) (hws : ws ≠ [])
    (hne : e.fullPath ≠ projectManagementDir ws)
    (habs : existsSync fs e.fullPath = false) :
    getChildren fs ws (some e) = (fs, []) := by
  simp [getChildren, hws, habs, hne]

/-- Witness for `getChildren_nonroot_missing_empty` at a concrete missing
node. -/
theorem getChildren_nonroot_missing_empty_witness :
    getChildren sampleRootFs ["ws"]
      (some (FileItem.make "other" ["ws", "other"] .collapsed))
      = (sampleRootFs, []) :=
  getChildren_nonroot_missing_empty sampleRootFs ["ws"]
    (FileItem.make "other" ["ws", "other"] .collapsed)
    (by decide) (by decide) (by decide)

/-! ### The overview file-search bucket claim -/

/-- Modelled from the spec words, for comparison with the code: the
`... more` note of the TypeScript Files bucket appears exactly "when the
hinted-name filter still leaves more than 5" files. -/
def specTsNoteCondition (files : List FoundFile) : Prop :=
  (tsMoreNote files).isSome ↔ 5 < (mainFiles (tsFiles files)).length

/-- Six TypeScript files none of whose paths contain the hinted substrings
`main`, `extension` or `index`. -/
def unhintedTsFiles : List FoundFile :=
  [{ path := "/proj/alpha.ts", fsPath := "/proj/alpha.ts" },
   { path := "/proj/beta.ts", fsPath := "/proj/beta.ts" },
   { path := "/proj/gamma.ts", fsPath := "/proj/gamma.ts" },
   { path := "/proj/delta.ts", fsPath := "/proj/delta.ts" },
   { path := "/proj/epsilon.ts", fsPath := "/proj/epsilon.ts" },
   { path := "/proj/zeta.ts", fsPath := "/proj/zeta.ts" }]

/-- **C1, counterexample.** On six TypeScript files that all fail the
hinted-name filter, the code still emits a `... and 1 more` note (its
condition is the count of all TypeScript files, not of the hinted ones), so
the claimed note condition is false. -/
theorem tsMoreNote_hinted_condition_counterexample :
    ¬ specTsNoteCondition unhintedTsFiles := by
  unfold specTsNoteCondition
  decide

/-- **C1, amended.** The search is capped at 100 results, so of 150
matching files exactly 100 are considered; the TypeScript Files bucket
shows at most 5 entries — a prefix of the files whose path contains one of
the hinted substrings — and the `... and N more` note is present exactly
when more than 5 TypeScript files are among the considered results
(regardless of the hinted-name filter), with `N` five less than that count
and so never more than 95. -/
theorem tsSection_capped_note (found : List FoundFile) :
    (found.length = 150 → (findFilesModel found 100).length = 100) ∧
    (tsShownFiles (findFilesModel found 100)).length ≤ 5 ∧
    tsShownFiles (findFilesModel found 100)
      <+: mainFiles (tsFiles (findFilesModel found 100)) ∧
    ((tsMoreNote (findFilesModel found 100)).isSome ↔
      5 < (tsFiles (findFilesModel found 100)).length) ∧
    (∀ n, tsMoreNote (findFilesModel found 100) = some n →
      n + 5 = (tsFiles (findFilesModel found 100)).length ∧ n ≤ 95) := by
  have hcap : (findFilesModel found 100).length ≤ 100 := by
    simp [findFilesModel]
  have hts : (tsFiles (findFilesModel found 100)).length
      ≤ (findFilesModel found 100).length :=
    List.length_filter_le _ _
  refine ⟨?_, ?_, ?_, ?_, ?_⟩
  · intro hlen
    simp [findFilesModel, hlen]
  · exact List.length_take_le 5 _
  · exact List.take_prefix 5 _
  · unfold tsMoreNote
    by_cases h5 : (tsFiles (findFilesModel found 100)).length > 5
    · simp [h5]
    · simp [h5]
  · intro n hn
    unfold tsMoreNote at hn
    by_cases h5 : (tsFiles (findFilesModel found 100)).length > 5
    · rw [if_pos h5] at hn
      have := Option.some.inj hn
      omega
    · rw [if_neg h5] at hn
      exact absurd hn (by simp)

/-- 150 files matching the search globs, all of them hinted TypeScript
files. -/
def manyTsFiles : List FoundFile :=
  List.replicate 150 { path := "/w/extension.ts", fsPath := "/w/extension.ts" }

/-- Witness for `tsSection_capped_note`: of 150 matching files exactly 100
are considered, and the note condition is the considered TypeScript count. -/
theorem tsSection_capped_note_witness :
    (findFilesModel manyTsFiles 100).length = 100 ∧
    ((tsMoreNote (findFilesModel manyTsFiles 100)).isSome ↔
      5 < (tsFiles (findFilesModel manyTsFiles 100)).length) :=
  ⟨(tsSection_capped_note manyTsFiles).1 (by simp [manyTsFiles]),
   (tsSection_capped_note manyTsFiles).2.2.2.1⟩

end ProjectManager
